import Mathlib

/-!
Verification of the MyBlog repository core components against its
specification.  The definitions below are shallow embeddings of the
JavaScript source:

* `src/email.js`   — `sendMail` with HTTPS-provider-first / SMTP-fallback
  delivery and sender-address resolution (`SendEnv`, `sendMailE`,
  `fromAddress`, `smtpAttempt`).
* `src/routes.js`  — the content renderer (`renderContentToHtml` and its
  helpers `escapeHtmlL`, `urlMatchAt`, `replaceUrls`, `imageRegexTest`,
  `isImgUrl`, `isStandaloneImage`), `slugify`, and the subscribe /
  create-post / delete-post / broadcast handlers.
* `src/db.js`      — the SQLite schema (posts, comments with a declared
  `ON DELETE CASCADE` foreign key, subscribers with a unique email).
  The persistence store is modelled at its interface boundary, honouring
  the constraints declared in the schema.
* `src/src/server.js` — the second (file + document-store) implementation:
  `/publish` and the per-post delete handler.

Strings are processed as `List Char`; the JavaScript regular expressions
of the renderer are translated into explicit structural scans.
-/

namespace MyBlog

/-- The JavaScript `\s` whitespace class (core members). -/
def isJsSpace (c : Char) : Bool :=
  c = ' ' || c = '\t' || c = '\n' || c = '\r' || c = '\x0b' || c = '\x0c' || c = ' '

/-- JavaScript `String.prototype.trim`: drop whitespace at both ends. -/
def trimL (cs : List Char) : List Char :=
  ((cs.dropWhile isJsSpace).reverse.dropWhile isJsSpace).reverse

/-- `litPrefix pat cs` — `cs` starts with the literal character sequence `pat`. -/
def litPrefix : List Char → List Char → Bool
  | [], _ => true
  | _ :: _, [] => false
  | p :: ps, c :: cs => if p = c then litPrefix ps cs else false

/-- Case-insensitive literal-prefix test (`pat` is given in lower case),
    modelling a `/i` regular-expression flag. -/
def litPrefixCI : List Char → List Char → Bool
  | [], _ => true
  | _ :: _, [] => false
  | p :: ps, c :: cs => if p = c.toLower then litPrefixCI ps cs else false

/-- The characters of `"http://"`. -/
def protoHttp : List Char := ['h', 't', 't', 'p', ':', '/', '/']

/-- The characters of `"https://"`. -/
def protoHttps : List Char := ['h', 't', 't', 'p', 's', ':', '/', '/']

/-! ## Email delivery (`src/email.js`)

`sendMail` is an `async` JavaScript function: its result is a promise that
either resolves to a value or rejects.  We embed it as `sendMailE`
returning `Except String Bool`, where `.error` models a rejected promise
and `.ok b` a promise resolved with the boolean `b`.  The outcomes of the
two external providers for the message at hand are part of the
environment (`resendFetch`, `smtpSend`). -/

/-- Configuration and per-message external outcomes for one `sendMail` call.
    `Option String` fields model `process.env` variables (`none` = unset). -/
structure SendEnv where
  mailFrom : Option String
  smtpHost : Option String
  smtpUser : Option String
  smtpPass : Option String
  resendKey : Option String
  /-- Outcome of `fetch('https://api.resend.com/emails', ...)`:
      `.error` = transport error (rejected fetch), `.ok b` = response with
      `res.ok = b`. -/
  resendFetch : Except String Bool
  /-- Outcome of `transport.sendMail(...)`: `.error` = rejected send. -/
  smtpSend : Except String Unit
deriving Repr

/-- JavaScript truthiness of an environment variable: unset and the empty
    string are falsy; a truthy variable yields its value. -/
def truthyOpt : Option String → Option String
  | none => none
  | some s => if s = "" then none else some s

/-- `src/email.js` line 32: `process.env.MAIL_FROM || process.env.SMTP_USER
    || 'onboarding@resend.dev'`. -/
def fromAddress (env : SendEnv) : String :=
  match truthyOpt env.mailFrom with
  | some v => v
  | none =>
    match truthyOpt env.smtpUser with
    | some v => v
    | none => "onboarding@resend.dev"

/-- `src/email.js` lines 33-35: warn exactly when neither `MAIL_FROM` nor
    `SMTP_USER` is set. -/
def warnsMissingFrom (env : SendEnv) : Bool :=
  (truthyOpt env.mailFrom).isNone && (truthyOpt env.smtpUser).isNone

/-- `createTransport` returns `null` unless `SMTP_HOST`, `SMTP_USER` and
    `SMTP_PASS` are all truthy (`src/email.js` line 12). -/
def smtpConfigured (env : SendEnv) : Bool :=
  (truthyOpt env.smtpHost).isSome && (truthyOpt env.smtpUser).isSome &&
    (truthyOpt env.smtpPass).isSome

/-- The SMTP leg of `sendMail` (`src/email.js` lines 62-71): `false` when the
    transport is unconfigured, the success of `transport.sendMail` otherwise,
    with a rejected send caught and turned into `false`. -/
def smtpAttempt (env : SendEnv) : Bool :=
  if smtpConfigured env then
    match env.smtpSend with
    | .ok _ => true
    | .error _ => false
  else false

/-- The `try` block of the Resend leg (`src/email.js` lines 40-55): a
    non-`ok` response is turned into a thrown error; a successful response
    resolves `true`. -/
def resendAttempt (env : SendEnv) : Except String Bool :=
  match env.resendFetch with
  | .error e => .error e
  | .ok true => .ok true
  | .ok false => .error "Resend non-ok status"

/-- `sendMail` (`src/email.js` lines 31-72).  When `RESEND_API_KEY` is truthy
    the HTTPS provider is attempted first; any error there is caught and the
    call falls through to the SMTP leg. -/
def sendMailE (env : SendEnv) : Except String Bool :=
  match truthyOpt env.resendKey with
  | some _ =>
    match resendAttempt env with
    | .ok b => .ok b
    | .error _ => .ok (smtpAttempt env)
  | none => .ok (smtpAttempt env)

/-- A settled promise counts as fulfilled exactly when it did not reject —
    the `r.status === 'fulfilled'` test applied by the batch handlers. -/
def isFulfilled : Except String Bool → Bool
  | .ok _ => true
  | .error _ => false

/-! ## Broadcast fan-out (`src/routes.js` lines 280-306)

The broadcast handler maps `sendMail` over the subscriber list, awaits
`Promise.allSettled`, and counts results with `status === 'fulfilled'` as
`sent` and the rest as `failed`. -/

/-- The settled per-recipient outcomes of one broadcast: `outcome` gives the
    provider environment/outcomes for each recipient address. -/
def broadcastResults (subs : List String) (outcome : String → SendEnv) :
    List (Except String Bool) :=
  subs.map (fun e => sendMailE (outcome e))

/-- Number of fulfilled results (`results.filter(r => r.status === 'fulfilled').length`). -/
def fulfilledCount (rs : List (Except String Bool)) : Nat :=
  (rs.filter isFulfilled).length

/-- The `{ sent, failed }` pair logged once the batch settles
    (`src/routes.js` lines 302-304): `sent` = fulfilled count,
    `failed` = total minus fulfilled. -/
def broadcastReport (subs : List String) (outcome : String → SendEnv) : Nat × Nat :=
  let rs := broadcastResults subs outcome
  (fulfilledCount rs, rs.length - fulfilledCount rs)

/-- An environment with no provider configured and every external call
    failing: `sendMail` can only return `false` here. -/
def envNone : SendEnv :=
  ⟨none, none, none, none, none, .error "unreachable", .error "unreachable"⟩

/-! ## Subscribe (`src/routes.js` lines 115-138) -/

/-- HTTP-level responses produced by the handlers we model. -/
inductive Resp where
  | redirect (loc : String)
  | badRequest (msg : String)
  | serverError (msg : String)
deriving Repr, DecidableEq

/-- A response that is not an HTTP error (the handlers below only ever
    redirect on completion). -/
def successStyle : Resp → Bool
  | .redirect _ => true
  | _ => false

/-- `(req.body.email || '').trim().toLowerCase()`. -/
def normalizeEmail (raw : String) : String :=
  String.mk ((trimL raw.data).map Char.toLower)

/-- Result of one `/subscribe` request: updated subscriber table, response,
    and the outcome of the fire-and-forget welcome email (`none` when no
    email was attempted). -/
structure SubscribeOutcome where
  db : List String
  resp : Resp
  mailSent : Option (Except String Bool)
deriving Repr

/-- The `/subscribe` handler: empty emails redirect home; a duplicate insert
    throws on the unique email column, is caught, and redirects with
    `subscribed=0`; a fresh insert fires a welcome email whose result is
    ignored and redirects with `subscribed=1`. -/
def subscribeStep (db : List String) (raw : String) (env : SendEnv) : SubscribeOutcome :=
  let email := normalizeEmail raw
  if email = "" then ⟨db, .redirect "/", none⟩
  else if email ∈ db then ⟨db, .redirect "/?subscribed=0", none⟩
  else ⟨db ++ [email], .redirect "/?subscribed=1", some (sendMailE env)⟩

/-! ## Slugs and post creation (`src/routes.js` lines 31-39 and 183-220) -/

/-- Keep exactly the characters of the class `[a-z0-9\s-]` — the complement
    of what `slugify`'s first `replace` strips. -/
def isSlugKeep (c : Char) : Bool :=
  ('a' ≤ c && c ≤ 'z') || ('0' ≤ c && c ≤ '9') || isJsSpace c || c = '-'

/-- Is the character matched by the class `[\s-]`? -/
def isSpaceOrDash (c : Char) : Bool := isJsSpace c || c = '-'

/-- Global replacement of every maximal `[\s-]+` run by a single `'-'`
    (the `replace(/[\s-]+/g, '-')` step); `prev` records whether the
    previous character belonged to the current run. -/
def collapseRuns (prev : Bool) : List Char → List Char
  | [] => []
  | c :: rest =>
    if isSpaceOrDash c then
      (if prev then [] else ['-']) ++ collapseRuns true rest
    else c :: collapseRuns false rest

/-- The `replace(/^-+|-+$/g, '')` step: strip leading and trailing runs of
    hyphens. -/
def stripEdgeDashes (cs : List Char) : List Char :=
  ((cs.dropWhile (fun c => c = '-')).reverse.dropWhile (fun c => c = '-')).reverse

/-- `slugify` over characters: lower-case, trim, strip `[^a-z0-9\s-]`,
    collapse `[\s-]+` to `'-'`, strip edge hyphens. -/
def slugifyL (cs : List Char) : List Char :=
  stripEdgeDashes (collapseRuns false ((trimL (cs.map Char.toLower)).filter isSlugKeep))

/-- `slugify` (`src/routes.js` lines 31-39). -/
def slugify (text : String) : String := String.mk (slugifyL text.data)

/-- JavaScript `.trim()` on a `String`. -/
def jsTrim (s : String) : String := String.mk (trimL s.data)

/-- One row of the SQLite `posts` table (fields used by the claims). -/
structure PostRow where
  title : String
  slug : String
  content : String
deriving Repr, DecidableEq

/-- Responses of the admin post-creation handler. -/
inductive AdminResp where
  /-- `res.redirect('/admin')` -/
  | redirectAdmin
  /-- re-render of the form with an inline error message -/
  | newFormError (msg : String)
deriving Repr, DecidableEq

/-- `POST /admin/posts` (`src/routes.js` lines 183-220), without uploads:
    validation, slug derivation, insert with the unique-slug constraint of
    the `posts` table (a violation is caught and reported as
    `'Title already used'`).  The fire-and-forget notification batch does
    not affect the store or the response. -/
def createPost (db : List PostRow) (rawTitle rawContent : String) :
    List PostRow × AdminResp :=
  let title := jsTrim rawTitle
  let content := jsTrim rawContent
  if title = "" ∨ content = "" then
    (db, .newFormError "Title and content required")
  else
    let slug := slugify title
    if db.any (fun p => p.slug = slug) then
      (db, .newFormError "Title already used")
    else
      (db ++ [⟨title, slug, content⟩], .redirectAdmin)

/-! ## The file + document-store implementation (`src/src/server.js`) -/

/-- State of the second implementation: markdown files on disk (slug,
    front-matter title, body), the Loki `posts` collection (slug, title) and
    the Loki `comments` collection (slug, name, text). -/
structure DocStore where
  files : List (String × String × String)
  coll : List (String × String)
  comments : List (String × String × String)
deriving Repr, DecidableEq

/-- Remove the first record with the given slug (`findOne` + `remove`). -/
def removeFirstSlug : List (String × String) → String → List (String × String)
  | [], _ => []
  | r :: rest, slug => if r.1 = slug then rest else r :: removeFirstSlug rest slug

/-- `POST /publish` (`src/src/server.js` lines 158-180).  `slugOf` is the
    `slugify` npm library (external; any deterministic function of the
    title), `fallbackSlug` models the `post-${Date.now()}` fallback used
    when the computed slug is empty.  `fs.writeFileSync` overwrites an
    existing file with the same name; `postsCollection.insert` appends
    unconditionally (no uniqueness constraint). -/
def publishPost (slugOf : String → String) (fallbackSlug : String)
    (st : DocStore) (title body : String) : DocStore × Resp :=
  if title = "" ∨ body = "" then
    (st, .badRequest "Title and body are required")
  else
    let slug := if slugOf title = "" then fallbackSlug else slugOf title
    ({ files := st.files.filter (fun f => ¬ f.1 = slug) ++ [(slug, title, body)],
       coll := st.coll ++ [(slug, title)],
       comments := st.comments },
     .redirect ("/p/" ++ slug))

/-- `POST /admin/posts/:slug/delete` (`src/src/server.js` lines 316-334):
    unlink the file if it exists, remove the first matching collection
    record if any, and `findAndRemove` every comment with that slug —
    whether or not the post exists. -/
def deletePostDoc (st : DocStore) (slug : String) : DocStore × Resp :=
  ({ files := st.files.filter (fun f => ¬ f.1 = slug),
     coll := removeFirstSlug st.coll slug,
     comments := st.comments.filter (fun c => ¬ c.1 = slug) },
   .redirect "/admin/posts")

/-! ## SQLite post deletion (`src/routes.js` lines 261-265)

The store is modelled at its interface boundary: the schema in `src/db.js`
declares `FOREIGN KEY(post_id) REFERENCES posts(id) ON DELETE CASCADE` on
the `comments` table, so deleting a post row cascades to exactly the
comments that reference the deleted row; deleting a non-existent id
matches zero rows and raises no error. -/

/-- One row of the `comments` table (fields used by the claims). -/
structure CommentRow where
  postId : Nat
  author : String
  body : String
deriving Repr, DecidableEq

/-- The SQLite tables touched by post deletion. -/
structure SqlBlog where
  posts : List (Nat × PostRow)
  comments : List CommentRow
deriving Repr, DecidableEq

/-- `DELETE /admin/posts/:id`: delete the post row with the given id (if
    any); the declared cascade removes the comments referencing a deleted
    row; the handler then redirects, never erroring on a miss. -/
def deletePostSql (st : SqlBlog) (pid : Nat) : SqlBlog × Resp :=
  ({ posts := st.posts.filter (fun p => ¬ p.1 = pid),
     comments :=
       if st.posts.any (fun p => p.1 = pid) then
         st.comments.filter (fun c => ¬ c.postId = pid)
       else st.comments },
   .redirect "/admin")

/-! ## Content renderer (`src/routes.js` lines 42-71)

The three regular expressions are translated into structural scans:

* `urlRegex = /(https?:\/\/[^\s]+)/g` — `urlMatchAt` / `findUrl` /
  `replaceUrls`;
* `imageRegex = /(https?:\/\/[^\s]+\.(?:png|jpg|jpeg|gif|webp))/i` —
  `imageRegexTest`;
* `/(\.png|\.jpg|\.jpeg|\.gif|\.webp)(\?|#|$)/i` — `isImgUrl`.
-/

/-- `escapeHtml` replaces one character by an entity. -/
def escChar (c : Char) : List Char :=
  if c = '&' then ['&', 'a', 'm', 'p', ';']
  else if c = '<' then ['&', 'l', 't', ';']
  else if c = '>' then ['&', 'g', 't', ';']
  else [c]

/-- Global replacement of the single character `t` by `rep` (one
    `String.prototype.replace(/x/g, rep)` pass; the replacement text is not
    rescanned within its own pass). -/
def replChar (t : Char) (rep : List Char) : List Char → List Char
  | [] => []
  | c :: cs => if c = t then rep ++ replChar t rep cs else c :: replChar t rep cs

/-- `escapeHtml` (`src/routes.js` lines 44-47): three sequential global
    replaces, `&` first, then `<`, then `>`. -/
def escapeHtmlL (cs : List Char) : List Char :=
  replChar '>' ['&', 'g', 't', ';']
    (replChar '<' ['&', 'l', 't', ';']
      (replChar '&' ['&', 'a', 'm', 'p', ';'] cs))

/-- Length of the protocol prefix matched by `https?:\/\/` at this
    position (case-sensitive; `urlRegex` carries no `/i` flag). -/
def urlPrefixLen (cs : List Char) : Option Nat :=
  if litPrefix protoHttps cs then some 8
  else if litPrefix protoHttp cs then some 7
  else none

/-- The `[^\s]` character class. -/
def nonSpace (c : Char) : Bool := !isJsSpace c

/-- A match of `urlRegex` starting at this position: the protocol followed
    by at least one non-whitespace character, extending greedily to the
    first whitespace.  Returns the match and the remainder. -/
def urlMatchAt (cs : List Char) : Option (List Char × List Char) :=
  match urlPrefixLen cs with
  | none => none
  | some p =>
    let run := cs.takeWhile nonSpace
    if p < run.length then some (run, cs.drop run.length) else none

/-- First `urlRegex` match in the string: `(text before, match, text after)`. -/
def findUrl : List Char → Option (List Char × List Char × List Char)
  | [] => none
  | c :: rest =>
    match urlMatchAt (c :: rest) with
    | some (m, after) => some ([], m, after)
    | none =>
      match findUrl rest with
      | some (pre, m, after) => some (c :: pre, m, after)
      | none => none

/-- `s.match(urlRegex)?.[0]` — the text of the first match, if any. -/
def firstUrlToken (cs : List Char) : Option (List Char) :=
  (findUrl cs).map (fun x => x.2.1)

/-- `replace(urlRegex, f)`: replace every match, scanning left to right.
    The fuel argument is bounded by the string length; every step consumes
    at least one character, so the fuel never runs out when started at the
    string length (`replaceUrls`). -/
def replaceUrlsF (f : List Char → List Char) : Nat → List Char → List Char
  | _, [] => []
  | 0, cs => cs
  | Nat.succ fuel, c :: rest =>
    match urlMatchAt (c :: rest) with
    | some (m, after) => f m ++ replaceUrlsF f fuel after
    | none => c :: replaceUrlsF f fuel rest

/-- Global `urlRegex` replacement over a whole string. -/
def replaceUrls (f : List Char → List Char) (cs : List Char) : List Char :=
  replaceUrlsF f cs.length cs

/-- Lower-case characters of the five allow-listed extensions, each with
    its leading dot. -/
def extPng : List Char := ['.', 'p', 'n', 'g']

def extJpg : List Char := ['.', 'j', 'p', 'g']

def extJpeg : List Char := ['.', 'j', 'p', 'e', 'g']

def extGif : List Char := ['.', 'g', 'i', 'f']

def extWebp : List Char := ['.', 'w', 'e', 'b', 'p']

/-- Does one of `.png|.jpg|.jpeg|.gif|.webp` match (case-insensitively)
    at this position? -/
def dotExtAt (cs : List Char) : Bool :=
  litPrefixCI extPng cs || litPrefixCI extJpg cs || litPrefixCI extJpeg cs ||
    litPrefixCI extGif cs || litPrefixCI extWebp cs

/-- `pat` (lower-case) matches case-insensitively at this position and is
    followed by `?`, `#` or the end of the string. -/
def extThenDelim : List Char → List Char → Bool
  | [], [] => true
  | [], '?' :: _ => true
  | [], '#' :: _ => true
  | [], _ => false
  | _ :: _, [] => false
  | p :: ps, c :: cs => if p = c.toLower then extThenDelim ps cs else false

/-- `/(\.png|\.jpg|\.jpeg|\.gif|\.webp)(\?|#|$)/i.test(url)` — the inline
    image test applied by the `urlRegex` replacer. -/
def isImgUrl : List Char → Bool
  | [] => false
  | c :: rest =>
    (extThenDelim extPng (c :: rest) || extThenDelim extJpg (c :: rest) ||
      extThenDelim extJpeg (c :: rest) || extThenDelim extGif (c :: rest) ||
      extThenDelim extWebp (c :: rest)) || isImgUrl rest

/-- Tail of an `imageRegex` match after the protocol: `[^\s]+` followed by a
    dot-extension (the matched characters up to the dot are non-whitespace
    and non-empty). -/
def imageTail : List Char → Bool
  | [] => false
  | c :: rest => nonSpace c && (dotExtAt rest || imageTail rest)

/-- An `imageRegex` match starting at this position (the `/i` flag makes the
    protocol case-insensitive as well). -/
def imageAt (cs : List Char) : Bool :=
  if litPrefixCI protoHttps cs then imageTail (cs.drop 8)
  else if litPrefixCI protoHttp cs then imageTail (cs.drop 7)
  else false

/-- `imageRegex.test(s)`: some position starts an `imageRegex` match. -/
def imageRegexTest : List Char → Bool
  | [] => false
  | c :: rest => imageAt (c :: rest) || imageRegexTest rest

/-- The standalone-image condition of `src/routes.js` line 55:
    `imageRegex.test(trimmed) && trimmed.match(urlRegex)?.[0] === trimmed`. -/
def isStandaloneImage (t : List Char) : Bool :=
  imageRegexTest t && decide (firstUrlToken t = some t)

/-- The image element emitted for a source URL (already escaped by the
    caller): `<div class="post-image"><img src="..." alt="image"
    loading="lazy"/></div>`. -/
def imageDiv (src : List Char) : List Char :=
  "<div class=\"post-image\"><img src=\"".data ++ src ++
    "\" alt=\"image\" loading=\"lazy\"/></div>".data

/-- The anchor element emitted for a non-image URL: `<a href="..."
    target="_blank" rel="noopener noreferrer">...</a>`. -/
def anchorHtml (url : List Char) : List Char :=
  "<a href=\"".data ++ url ++
    "\" target=\"_blank\" rel=\"noopener noreferrer\">".data ++ url ++ "</a>".data

/-- The `urlRegex` replacer of `src/routes.js` lines 61-67: inline image for
    URLs passing `isImgUrl`, anchor otherwise; in both cases the matched
    text (taken from the already-escaped line) is passed through
    `escapeHtml` once more. -/
def urlReplacer (url : List Char) : List Char :=
  if isImgUrl url then imageDiv (escapeHtmlL url) else anchorHtml (escapeHtmlL url)

/-- Render one line (`src/routes.js` lines 51-69): blank → `<br/>`;
    standalone image URL → bare image element; otherwise escape the whole
    line, replace URLs, and wrap in a paragraph. -/
def renderLine (line : List Char) : List Char :=
  let trimmed := trimL line
  if trimmed.isEmpty then "<br/>".data
  else if isStandaloneImage trimmed then imageDiv (escapeHtmlL trimmed)
  else "<p>".data ++ replaceUrls urlReplacer (escapeHtmlL line) ++ "</p>".data

/-- Split on `/\r?\n/` (a lone `\r` is not a separator); `cur` holds the
    current line in reverse. -/
def splitLinesAux (cur : List Char) : List Char → List (List Char)
  | [] => [cur.reverse]
  | '\r' :: '\n' :: rest => cur.reverse :: splitLinesAux [] rest
  | '\n' :: rest => cur.reverse :: splitLinesAux [] rest
  | c :: rest => splitLinesAux (c :: cur) rest

/-- `renderContentToHtml` (`src/routes.js` lines 42-71). -/
def renderContentToHtml (content : String) : String :=
  if content = "" then ""
  else String.mk (List.intercalate ['\n'] ((splitLinesAux [] content.data).map renderLine))

/-! ### Analysis predicates used by the renderer theorems -/

/-- `cs` starts with `http://` or `https://` (case-sensitive, as in `urlRegex`). -/
def startsWithProto (cs : List Char) : Bool :=
  litPrefix protoHttp cs || litPrefix protoHttps cs

/-- Some position of `cs` starts with `http://` or `https://` — `cs`
    contains a `urlRegex` protocol occurrence. -/
def hasProto : List Char → Bool
  | [] => false
  | c :: rest => startsWithProto (c :: rest) || hasProto rest

/-- Every `&` in `cs` begins one of the entities `&amp;`, `&lt;`, `&gt;` —
    ampersands appear only in escaped form. -/
def ampOk : List Char → Bool
  | [] => true
  | c :: rest =>
    (if c = '&' then
        litPrefix ['a', 'm', 'p', ';'] rest || litPrefix ['l', 't', ';'] rest ||
          litPrefix ['g', 't', ';'] rest
      else true) && ampOk rest

/-- The list is empty or starts with a whitespace character. -/
def spaceHeadedOrNil : List Char → Bool
  | [] => true
  | c :: _ => isJsSpace c

/-- `pat` occurs as a contiguous subsequence of the list. -/
def containsSeq (pat : List Char) : List Char → Bool
  | [] => litPrefix pat []
  | c :: rest => litPrefix pat (c :: rest) || containsSeq pat rest

/-! ## Concrete environments and stores used by witnesses and counterexamples -/

/-- Environment with a truthy Resend key and a successful HTTPS call. -/
def envResendOk : SendEnv :=
  ⟨none, none, none, none, some "k", .ok true, .error "smtp down"⟩

/-- Environment with only `MAIL_FROM` configured. -/
def envFromOnly : SendEnv :=
  ⟨some "me@blog.io", none, none, none, none, .error "e", .error "e"⟩

/-- An empty document store. -/
def emptyDoc : DocStore := ⟨[], [], []⟩

/-- A document store holding one orphaned comment: the comment references
    slug `"ghost"`, but no post file or record with that slug exists. -/
def ghostStore : DocStore := ⟨[], [], [("ghost", "bob", "hi")]⟩

/-- A SQLite store with one post (id 1) and comments on it and on a
    different post id. -/
def sqlStoreW : SqlBlog :=
  ⟨[(1, ⟨"Hello", "hello", "body"⟩)], [⟨1, "ann", "nice"⟩, ⟨2, "bob", "stale"⟩]⟩

/-! # Theorems -/

/-- Helper: `sendMail` never rejects — every provider failure is caught. -/
theorem sendMailE_fulfilled (env : SendEnv) : isFulfilled (sendMailE env) = true := by
  unfold sendMailE resendAttempt
  cases truthyOpt env.resendKey with
  | none => rfl
  | some k =>
    cases h : env.resendFetch with
    | error e => simp [isFulfilled]
    | ok b => cases b <;> simp [isFulfilled]

/-- C10: for every environment (configuration plus external outcomes),
    `sendMail` resolves to a boolean and never rejects: every provider,
    transport, or configuration failure is folded into a resolved boolean
    (in particular `false`). -/
theorem sendMail_always_resolves (env : SendEnv) : ∃ b, sendMailE env = Except.ok b := by
  have h := sendMailE_fulfilled env
  cases hs : sendMailE env with
  | ok b => exact ⟨b, rfl⟩
  | error e => rw [hs] at h; simp [isFulfilled] at h

/-- C9: the sender address is the configured `MAIL_FROM` when truthy, else
    the SMTP username when truthy, else the fixed fallback
    `onboarding@resend.dev`; the warning is emitted exactly when neither is
    configured. -/
theorem sender_resolution_order (env : SendEnv) :
    (∀ v, truthyOpt env.mailFrom = some v → fromAddress env = v) ∧
    (truthyOpt env.mailFrom = none →
      ∀ v, truthyOpt env.smtpUser = some v → fromAddress env = v) ∧
    (truthyOpt env.mailFrom = none → truthyOpt env.smtpUser = none →
      fromAddress env = "onboarding@resend.dev") ∧
    (warnsMissingFrom env = true ↔
      truthyOpt env.mailFrom = none ∧ truthyOpt env.smtpUser = none) := by
  unfold fromAddress warnsMissingFrom
  cases hm : truthyOpt env.mailFrom <;> cases hu : truthyOpt env.smtpUser <;> simp

/-- Witness for C9 at a concrete environment. -/
theorem sender_resolution_order_witness : fromAddress envFromOnly = "me@blog.io" :=
  (sender_resolution_order envFromOnly).1 "me@blog.io" (by decide)

/-- C8: per message, the HTTPS provider is attempted first when its key is
    configured and a success resolves `true`; on any non-success response or
    transport error the SMTP leg decides the outcome; without a key the
    SMTP leg decides; if neither provider is configured, or both fail, the
    send resolves `false`; and the subscribe action completes with the same
    store and redirect regardless of the email outcome. -/
theorem provider_fallback_order :
    (∀ env : SendEnv, truthyOpt env.resendKey ≠ none →
        env.resendFetch = .ok true → sendMailE env = .ok true) ∧
    (∀ env : SendEnv, truthyOpt env.resendKey ≠ none →
        env.resendFetch ≠ .ok true → sendMailE env = .ok (smtpAttempt env)) ∧
    (∀ env : SendEnv, truthyOpt env.resendKey = none →
        sendMailE env = .ok (smtpAttempt env)) ∧
    (∀ env : SendEnv, truthyOpt env.resendKey = none → smtpConfigured env = false →
        sendMailE env = .ok false) ∧
    (∀ env : SendEnv, truthyOpt env.resendKey ≠ none → env.resendFetch ≠ .ok true →
        smtpAttempt env = false → sendMailE env = .ok false) ∧
    (∀ (db : List String) (raw : String) (env env' : SendEnv),
        (subscribeStep db raw env).db = (subscribeStep db raw env').db ∧
        (subscribeStep db raw env).resp = (subscribeStep db raw env').resp ∧
        ∃ loc, (subscribeStep db raw env).resp = .redirect loc) := by
  refine ⟨?_, ?_, ?_, ?_, ?_, ?_⟩
  · intro env hk hf
    unfold sendMailE resendAttempt
    cases hres : truthyOpt env.resendKey with
    | none => exact absurd hres hk
    | some k => rw [hf]
  · intro env hk hf
    unfold sendMailE resendAttempt
    cases hres : truthyOpt env.resendKey with
    | none => exact absurd hres hk
    | some k =>
      cases hfetch : env.resendFetch with
      | error e => rfl
      | ok b =>
        cases b with
        | true => exact absurd hfetch hf
        | false => rfl
  · intro env hk
    unfold sendMailE
    rw [hk]
  · intro env hk hs
    unfold sendMailE smtpAttempt
    rw [hk, hs]
    simp [smtpAttempt, hs]
  · intro env hk hf hs
    unfold sendMailE resendAttempt
    cases hres : truthyOpt env.resendKey with
    | none => exact absurd hres hk
    | some k =>
      cases hfetch : env.resendFetch with
      | error e => rw [hs]
      | ok b =>
        cases b with
        | true => exact absurd hfetch hf
        | false => rw [hs]
  · intro db raw env env'
    unfold subscribeStep
    by_cases h0 : normalizeEmail raw = ""
    · simp [h0]
    · by_cases h1 : normalizeEmail raw ∈ db <;> simp [h0, h1]

/-- Witness for C8: HTTPS provider succeeds — the send resolves `true` even
    though SMTP is down. -/
theorem provider_fallback_order_witness : sendMailE envResendOk = .ok true :=
  provider_fallback_order.1 envResendOk (by decide) rfl

/-- C1 (code bug): the aggregate logged after a broadcast settles counts
    `allSettled` statuses, and `sendMail` never rejects, so the report is
    always `(N, 0)` — even when individual sends fail.  At the concrete
    failing input (one subscriber, no provider configured) the lone send
    resolves `false`, yet the report says one sent, zero failed, instead of
    the claimed zero successes and one failure. -/
theorem broadcast_reports_all_sent :
    (∀ (subs : List String) (outcome : String → SendEnv),
        broadcastReport subs outcome = (subs.length, 0)) ∧
    broadcastReport ["s@example.com"] (fun _ => envNone) = (1, 0) ∧
    sendMailE envNone = .ok false := by
  refine ⟨?_, by rfl, by rfl⟩
  intro subs outcome
  unfold broadcastReport
  have hall : ∀ r ∈ broadcastResults subs outcome, isFulfilled r = true := by
    intro r hr
    obtain ⟨e, _, rfl⟩ := List.mem_map.1 hr
    exact sendMailE_fulfilled _
  have hcount : fulfilledCount (broadcastResults subs outcome) =
      (broadcastResults subs outcome).length := by
    unfold fulfilledCount
    rw [List.filter_eq_self.2 hall]
  show (fulfilledCount (broadcastResults subs outcome),
      (broadcastResults subs outcome).length -
        fulfilledCount (broadcastResults subs outcome)) = (subs.length, 0)
  rw [hcount]
  unfold broadcastResults
  simp

/-- C7: subscribing the same (nonempty, normalized) address twice starting
    from a store without it leaves exactly one record for it, and both
    requests complete with success-style redirects — the duplicate attempt
    is answered with the `subscribed=0` redirect, not an error. -/
theorem subscribe_idempotent (db : List String) (raw : String) (env1 env2 : SendEnv)
    (hne : normalizeEmail raw ≠ "") (hfresh : normalizeEmail raw ∉ db) :
    (subscribeStep db raw env1).resp = .redirect "/?subscribed=1" ∧
    (subscribeStep (subscribeStep db raw env1).db raw env2).resp =
      .redirect "/?subscribed=0" ∧
    successStyle (subscribeStep db raw env1).resp = true ∧
    successStyle (subscribeStep (subscribeStep db raw env1).db raw env2).resp = true ∧
    (subscribeStep (subscribeStep db raw env1).db raw env2).db =
      db ++ [normalizeEmail raw] ∧
    ((subscribeStep (subscribeStep db raw env1).db raw env2).db).count
      (normalizeEmail raw) = 1 := by
  have h1 : subscribeStep db raw env1 =
      ⟨db ++ [normalizeEmail raw], .redirect "/?subscribed=1",
        some (sendMailE env1)⟩ := by
    unfold subscribeStep
    simp [hne, hfresh]
  have hmem : normalizeEmail raw ∈ db ++ [normalizeEmail raw] := by
    simp
  have h2 : subscribeStep (db ++ [normalizeEmail raw]) raw env2 =
      ⟨db ++ [normalizeEmail raw], .redirect "/?subscribed=0", none⟩ := by
    unfold subscribeStep
    simp [hne, hmem]
  simp [h1, h2, successStyle, List.count_append, List.count_eq_zero.2 hfresh]

/-- Witness for C7 at a concrete store and raw email (normalization included). -/
theorem subscribe_idempotent_witness :
    (subscribeStep ["x@y.z"] " A@B.c " envNone).resp = .redirect "/?subscribed=1" ∧
    (subscribeStep (subscribeStep ["x@y.z"] " A@B.c " envNone).db " A@B.c " envNone).resp =
      .redirect "/?subscribed=0" ∧
    ((subscribeStep (subscribeStep ["x@y.z"] " A@B.c " envNone).db " A@B.c " envNone).db).count
      (normalizeEmail " A@B.c ") = 1 := by
  have h := subscribe_idempotent ["x@y.z"] " A@B.c " envNone envNone
    (by decide) (by decide)
  exact ⟨h.1, h.2.1, h.2.2.2.2.2⟩

/-- Helper: `findOne` + `remove` leaves the collection unchanged when no
    record matches. -/
theorem removeFirstSlug_of_not_mem (l : List (String × String)) (slug : String)
    (h : ∀ r ∈ l, ¬ r.1 = slug) : removeFirstSlug l slug = l := by
  induction l with
  | nil => rfl
  | cons r rest ih =>
    unfold removeFirstSlug
    rw [if_neg (h r (List.mem_cons_self r rest))]
    rw [ih (fun x hx => h x (List.mem_cons_of_mem r hx))]

/-- C6 (amended, SQLite implementation): slug generation is a function of
    the title alone, and when two titles normalize to the same slug the
    second `POST /admin/posts` fails with the `'Title already used'`
    conflict while the store — including the first post's content — is left
    unchanged. -/
theorem slug_conflict_rejected (db : List PostRow) (t1 c1 t2 c2 : String)
    (ht1 : jsTrim t1 ≠ "") (hc1 : jsTrim c1 ≠ "") (ht2 : jsTrim t2 ≠ "")
    (hc2 : jsTrim c2 ≠ "")
    (hslug : slugify (jsTrim t2) = slugify (jsTrim t1))
    (hfree : db.any (fun p => p.slug = slugify (jsTrim t1)) = false) :
    (∀ a b : String, a = b → slugify a = slugify b) ∧
    createPost db t1 c1 =
      (db ++ [⟨jsTrim t1, slugify (jsTrim t1), jsTrim c1⟩], .redirectAdmin) ∧
    createPost (db ++ [⟨jsTrim t1, slugify (jsTrim t1), jsTrim c1⟩]) t2 c2 =
      (db ++ [⟨jsTrim t1, slugify (jsTrim t1), jsTrim c1⟩],
        .newFormError "Title already used") := by
  refine ⟨fun a b hab => by rw [hab], ?_, ?_⟩
  · unfold createPost
    rw [if_neg (by exact fun h => h.elim ht1 hc1)]
    simp only
    rw [if_neg (by simp_all)]
  · unfold createPost
    rw [if_neg (by exact fun h => h.elim ht2 hc2)]
    simp only
    rw [if_pos]
    rw [List.any_append]
    simp [hslug]

/-- Witness for C6 at two concrete titles normalizing to the slug
    `my-post`. -/
theorem slug_conflict_rejected_witness :
    createPost [] "My Post" "body one" =
      ([⟨"My Post", "my-post", "body one"⟩], .redirectAdmin) ∧
    createPost [⟨"My Post", "my-post", "body one"⟩] " My  Post!! " "body two" =
      ([⟨"My Post", "my-post", "body one"⟩], .newFormError "Title already used") := by
  have h := slug_conflict_rejected [] "My Post" "body one" " My  Post!! " "body two"
    (by decide) (by decide) (by decide) (by decide) (by decide) (by decide)
  exact ⟨h.2.1, h.2.2⟩

/-- C6 counterexample (file + document-store implementation): publishing
    twice with the same title succeeds both times, silently overwrites the
    stored body, and duplicates the collection record — no uniqueness
    conflict is raised. -/
theorem publish_overwrites_on_slug_collision :
    (publishPost slugify "post-0"
        (publishPost slugify "post-0" emptyDoc "My Post" "first body").1
        "My Post" "second body").1.files = [("my-post", "My Post", "second body")] ∧
    (publishPost slugify "post-0"
        (publishPost slugify "post-0" emptyDoc "My Post" "first body").1
        "My Post" "second body").2 = .redirect "/p/my-post" ∧
    (publishPost slugify "post-0" emptyDoc "My Post" "first body").1.files =
      [("my-post", "My Post", "first body")] ∧
    (publishPost slugify "post-0"
        (publishPost slugify "post-0" emptyDoc "My Post" "first body").1
        "My Post" "second body").1.coll =
      [("my-post", "My Post"), ("my-post", "My Post")] := by
  refine ⟨by decide, by decide, by decide, by decide⟩

/-- C2 (amended): deleting an existing post removes exactly the comments
    referencing it in both implementations, and deleting a missing
    identifier completes with a redirect; in the SQLite implementation a
    miss is a strict no-op, while the document-store implementation still
    removes any comments carrying the missing slug. -/
theorem delete_post_cascades (st : SqlBlog) (pid : Nat) (ds : DocStore) (slug : String) :
    ((st.posts.any (fun p => p.1 = pid) = true →
        (deletePostSql st pid).1.posts = st.posts.filter (fun p => ¬ p.1 = pid) ∧
        (deletePostSql st pid).1.comments =
          st.comments.filter (fun c => ¬ c.postId = pid)) ∧
     (st.posts.any (fun p => p.1 = pid) = false → (deletePostSql st pid).1 = st) ∧
     (deletePostSql st pid).2 = .redirect "/admin") ∧
    ((deletePostDoc ds slug).1.comments = ds.comments.filter (fun c => ¬ c.1 = slug) ∧
     (deletePostDoc ds slug).2 = .redirect "/admin/posts" ∧
     ((∀ f ∈ ds.files, ¬ f.1 = slug) → (∀ r ∈ ds.coll, ¬ r.1 = slug) →
        (deletePostDoc ds slug).1.files = ds.files ∧
        (deletePostDoc ds slug).1.coll = ds.coll)) := by
  refine ⟨⟨?_, ?_, rfl⟩, ?_, rfl, ?_⟩
  · intro hin
    unfold deletePostSql
    simp [hin]
  · intro hmiss
    unfold deletePostSql
    have hnone : ∀ p ∈ st.posts, ¬ p.1 = pid := by
      intro p hp hcontra
      have h2 : (st.posts.any fun q => decide (q.1 = pid)) = true :=
        List.any_eq_true.2 ⟨p, hp, decide_eq_true hcontra⟩
      rw [hmiss] at h2
      cases h2
    simp only [hmiss]
    have hfilter : List.filter (fun p => !decide (p.1 = pid)) st.posts = st.posts :=
      List.filter_eq_self.2 (fun p hp => by simp [hnone p hp])
    simp only [Bool.false_eq_true, if_false, decide_not]
    rw [hfilter]
  · unfold deletePostDoc
    simp
  · intro hf hc
    unfold deletePostDoc
    constructor
    · simp only
      exact List.filter_eq_self.2 (fun f hfm => by simp [hf f hfm])
    · simp only
      exact removeFirstSlug_of_not_mem ds.coll slug hc

/-- Witness for C2 at a concrete store: deleting post 1 removes its comment
    and keeps the comment on post 2; deleting the absent id 7 changes
    nothing. -/
theorem delete_post_cascades_witness :
    (deletePostSql sqlStoreW 1).1.comments = [⟨2, "bob", "stale"⟩] ∧
    (deletePostSql sqlStoreW 1).1.posts = [] ∧
    (deletePostSql sqlStoreW 7).1 = sqlStoreW ∧
    (deletePostSql sqlStoreW 7).2 = .redirect "/admin" := by
  have h1 := (delete_post_cascades sqlStoreW 1 emptyDoc "s").1.1 (by decide)
  have h7 := (delete_post_cascades sqlStoreW 7 emptyDoc "s").1.2.1 (by decide)
  refine ⟨?_, ?_, h7, (delete_post_cascades sqlStoreW 7 emptyDoc "s").1.2.2⟩
  · rw [h1.2]; decide
  · rw [h1.1]; decide

/-- C2 counterexample: in the document-store implementation, deleting the
    non-existent slug `ghost` (no file, no collection record) still removes
    the orphaned comment carrying that slug — the state changes, so the
    delete of a missing identifier is not a no-op there. -/
theorem delete_missing_post_not_noop :
    ghostStore.files = [] ∧ ghostStore.coll = [] ∧
    (deletePostDoc ghostStore "ghost").1.comments = [] ∧
    (deletePostDoc ghostStore "ghost").1 ≠ ghostStore ∧
    (deletePostDoc ghostStore "ghost").2 = .redirect "/admin/posts" := by
  refine ⟨rfl, rfl, by decide, by decide, rfl⟩

theorem litPrefix_refl_append (xs ys : List Char) : litPrefix xs (xs ++ ys) = true := by
  induction xs with
  | nil => rfl
  | cons c cs ih => simpa [litPrefix] using ih

theorem litPrefixCI_lower_append (xs ys : List Char) :
    litPrefixCI (xs.map Char.toLower) (xs ++ ys) = true := by
  induction xs with
  | nil => rfl
  | cons c cs ih => simpa [litPrefixCI] using ih

theorem litPrefixCI_lower_self (l : List Char) :
    litPrefixCI (l.map Char.toLower) l = true := by
  simpa using litPrefixCI_lower_append l []

theorem takeWhile_eq_self_of_all {p : Char → Bool} {l : List Char}
    (h : ∀ c ∈ l, p c = true) : l.takeWhile p = l := by
  induction l with
  | nil => rfl
  | cons c cs ih =>
    rw [List.takeWhile_cons_of_pos (h c (List.mem_cons_self c cs))]
    rw [ih (fun x hx => h x (List.mem_cons_of_mem c hx))]

theorem urlPrefixLen_http (X : List Char) : urlPrefixLen (protoHttp ++ X) = some 7 := by
  have h1 : litPrefix protoHttps (protoHttp ++ X) = false := by
    simp +decide [litPrefix, protoHttp, protoHttps]
  have h2 : litPrefix protoHttp (protoHttp ++ X) = true := litPrefix_refl_append protoHttp X
  simp [urlPrefixLen, h1, h2]

theorem urlPrefixLen_https (X : List Char) : urlPrefixLen (protoHttps ++ X) = some 8 := by
  have h1 : litPrefix protoHttps (protoHttps ++ X) = true := litPrefix_refl_append protoHttps X
  simp [urlPrefixLen, h1]

theorem urlMatchAt_full (t : List Char) (p : Nat) (hp : urlPrefixLen t = some p)
    (hlen : p < t.length) (hns : ∀ c ∈ t, isJsSpace c = false) :
    urlMatchAt t = some (t, []) := by
  have hrun : t.takeWhile nonSpace = t :=
    takeWhile_eq_self_of_all (fun c hc => by simp [nonSpace, hns c hc])
  simp [urlMatchAt, hp, hrun, hlen, List.drop_length]

theorem findUrl_of_match (cs m after : List Char) (hne : cs ≠ [])
    (h : urlMatchAt cs = some (m, after)) : findUrl cs = some ([], m, after) := by
  cases cs with
  | nil => exact absurd rfl hne
  | cons c rest =>
    unfold findUrl
    rw [h]

theorem imageTail_append : ∀ (mid rest : List Char), mid ≠ [] →
    (∀ c ∈ mid, isJsSpace c = false) → dotExtAt rest = true →
    imageTail (mid ++ rest) = true
  | [], _, h, _, _ => absurd rfl h
  | [c], rest, _, hns, hdot => by
    have hc := hns c (List.mem_cons_self c [])
    simp [imageTail, nonSpace, hc, hdot]
  | c :: d :: mid'', rest, _, hns, hdot => by
    have ih := imageTail_append (d :: mid'') rest (by simp)
      (fun x hx => hns x (List.mem_cons_of_mem c hx)) hdot
    have hc := hns c (List.mem_cons_self c (d :: mid''))
    simp [imageTail, nonSpace, hc]
    exact Or.inr (by simpa [imageTail, nonSpace] using ih)

theorem dotExtAt_of_ext (ext : List Char)
    (hext : ext.map Char.toLower = ['p', 'n', 'g'] ∨
      ext.map Char.toLower = ['j', 'p', 'g'] ∨
      ext.map Char.toLower = ['j', 'p', 'e', 'g'] ∨
      ext.map Char.toLower = ['g', 'i', 'f'] ∨
      ext.map Char.toLower = ['w', 'e', 'b', 'p']) :
    dotExtAt ('.' :: ext) = true := by
  have hmap : ∀ (t : List Char), ext.map Char.toLower = t →
      litPrefixCI ('.' :: t) ('.' :: ext) = true := by
    intro t ht
    have heq : ('.' :: t) = ('.' :: ext).map Char.toLower := by
      simp +decide [ht]
    rw [heq]
    exact litPrefixCI_lower_self ('.' :: ext)
  unfold dotExtAt
  rcases hext with h | h | h | h | h <;>
    simp [extPng, extJpg, extJpeg, extGif, extWebp, hmap _ h]

theorem litPrefixCI_http_append (X : List Char) :
    litPrefixCI protoHttp (protoHttp ++ X) = true := by
  have h : protoHttp = protoHttp.map Char.toLower := by decide
  rw [h]
  exact litPrefixCI_lower_append protoHttp X

theorem litPrefixCI_https_append (X : List Char) :
    litPrefixCI protoHttps (protoHttps ++ X) = true := by
  have h : protoHttps = protoHttps.map Char.toLower := by decide
  rw [h]
  exact litPrefixCI_lower_append protoHttps X

theorem imageAt_proto (proto mid ext : List Char)
    (hproto : proto = protoHttp ∨ proto = protoHttps)
    (hmid : mid ≠ []) (hmidns : ∀ c ∈ mid, isJsSpace c = false)
    (hdot : dotExtAt ('.' :: ext) = true) :
    imageAt (proto ++ (mid ++ '.' :: ext)) = true := by
  have htail : imageTail (mid ++ '.' :: ext) = true :=
    imageTail_append mid ('.' :: ext) hmid hmidns hdot
  rcases hproto with h | h <;> subst h
  · have h1 : litPrefixCI protoHttps (protoHttp ++ (mid ++ '.' :: ext)) = false := by
      simp +decide [litPrefixCI, protoHttp, protoHttps]
    have h2 := litPrefixCI_http_append (mid ++ '.' :: ext)
    have hdrop : (protoHttp ++ (mid ++ '.' :: ext)).drop 7 = mid ++ '.' :: ext := by
      have hl : protoHttp.length = 7 := by decide
      rw [← hl, List.drop_left]
    simp [imageAt, h1, h2, hdrop, htail]
  · have h2 := litPrefixCI_https_append (mid ++ '.' :: ext)
    have hdrop : (protoHttps ++ (mid ++ '.' :: ext)).drop 8 = mid ++ '.' :: ext := by
      have hl : protoHttps.length = 8 := by decide
      rw [← hl, List.drop_left]
    simp [imageAt, h2, hdrop, htail]

/-- C3: a line whose trimmed content is a single lowercase-scheme `http(s)`
    URL with a non-empty body and an allow-listed image extension
    (png/jpg/jpeg/gif/webp, case-insensitive) at its end renders as exactly
    one image element (with the lazy-loading hint) wrapping the
    HTML-escaped URL, with no surrounding paragraph element. -/
theorem bare_image_line_renders_image (line proto mid ext : List Char)
    (hproto : proto = protoHttp ∨ proto = protoHttps)
    (hext : ext.map Char.toLower = ['p', 'n', 'g'] ∨
      ext.map Char.toLower = ['j', 'p', 'g'] ∨
      ext.map Char.toLower = ['j', 'p', 'e', 'g'] ∨
      ext.map Char.toLower = ['g', 'i', 'f'] ∨
      ext.map Char.toLower = ['w', 'e', 'b', 'p'])
    (htrim : trimL line = proto ++ (mid ++ '.' :: ext))
    (hmid : mid ≠ [])
    (hmidns : ∀ c ∈ mid, isJsSpace c = false)
    (hextns : ∀ c ∈ ext, isJsSpace c = false) :
    renderLine line = imageDiv (escapeHtmlL (trimL line)) := by
  have hdot : dotExtAt ('.' :: ext) = true := dotExtAt_of_ext ext hext
  have hprotons : ∀ c ∈ proto, isJsSpace c = false := by
    rcases hproto with h | h <;> subst h <;> decide
  have hns : ∀ c ∈ trimL line, isJsSpace c = false := by
    rw [htrim]
    intro c hc
    rcases List.mem_append.1 hc with h | h
    · exact hprotons c h
    rcases List.mem_append.1 h with h | h
    · exact hmidns c h
    rcases List.mem_cons.1 h with h | h
    · subst h; decide
    · exact hextns c h
  have hmidlen : 1 ≤ mid.length := List.length_pos.2 hmid
  have hp : ∃ p, urlPrefixLen (trimL line) = some p ∧ p < (trimL line).length := by
    rcases hproto with h | h <;> subst h
    · refine ⟨7, by rw [htrim]; exact urlPrefixLen_http _, ?_⟩
      rw [htrim]
      simp [protoHttp]
    · refine ⟨8, by rw [htrim]; exact urlPrefixLen_https _, ?_⟩
      rw [htrim]
      simp [protoHttps]
  obtain ⟨p, hp1, hp2⟩ := hp
  have hne : trimL line ≠ [] := by
    rw [htrim]
    rcases hproto with h | h <;> subst h <;> simp [protoHttp, protoHttps]
  have hmatch : urlMatchAt (trimL line) = some (trimL line, []) :=
    urlMatchAt_full _ p hp1 hp2 hns
  have hfind : findUrl (trimL line) = some ([], trimL line, []) :=
    findUrl_of_match _ _ _ hne hmatch
  have hfirst : firstUrlToken (trimL line) = some (trimL line) := by
    unfold firstUrlToken
    rw [hfind]
    rfl
  have himgat : imageAt (trimL line) = true := by
    rw [htrim]
    exact imageAt_proto proto mid ext hproto hmid hmidns hdot
  have himg : imageRegexTest (trimL line) = true := by
    cases hcs : trimL line with
    | nil => exact absurd hcs hne
    | cons c rest =>
      rw [hcs] at himgat
      simp [imageRegexTest, himgat]
  have hstand : isStandaloneImage (trimL line) = true := by
    simp [isStandaloneImage, himg, hfirst]
  have hnotempty : (trimL line).isEmpty = false := by
    cases hcs : trimL line with
    | nil => exact absurd hcs hne
    | cons c rest => rfl
  simp [renderLine, hnotempty, hstand]

/-- Witness for C3 at a concrete bare image-URL line (with surrounding
    whitespace and an upper-case extension). -/
theorem bare_image_line_renders_image_witness :
    renderLine " http://example.com/cat.PNG".data =
      imageDiv (escapeHtmlL (trimL " http://example.com/cat.PNG".data)) :=
  bare_image_line_renders_image " http://example.com/cat.PNG".data protoHttp
    "example.com/cat".data "PNG".data (Or.inl rfl) (Or.inl (by decide))
    (by decide) (by decide) (by decide) (by decide)

theorem replChar_append (t : Char) (rep a b : List Char) :
    replChar t rep (a ++ b) = replChar t rep a ++ replChar t rep b := by
  induction a with
  | nil => rfl
  | cons c cs ih => by_cases h : c = t <;> simp [replChar, h, ih]

theorem escapeHtmlL_append (a b : List Char) :
    escapeHtmlL (a ++ b) = escapeHtmlL a ++ escapeHtmlL b := by
  unfold escapeHtmlL
  rw [replChar_append, replChar_append, replChar_append]

theorem escapeHtmlL_cons (c : Char) (cs : List Char) :
    escapeHtmlL (c :: cs) = escChar c ++ escapeHtmlL cs := by
  by_cases h1 : c = '&'
  · subst h1; simp +decide [escapeHtmlL, escChar, replChar, replChar_append]
  by_cases h2 : c = '<'
  · subst h2; simp +decide [escapeHtmlL, escChar, replChar, replChar_append]
  by_cases h3 : c = '>'
  · subst h3; simp +decide [escapeHtmlL, escChar, replChar, replChar_append]
  · simp [escapeHtmlL, escChar, replChar, h1, h2, h3]

theorem escChar_no_lt (c : Char) : '<' ∉ escChar c := by
  by_cases h1 : c = '&'
  · subst h1; decide
  by_cases h2 : c = '<'
  · subst h2; decide
  by_cases h3 : c = '>'
  · subst h3; decide
  · unfold escChar
    rw [if_neg h1, if_neg h2, if_neg h3]
    intro hmem
    rw [List.mem_singleton] at hmem
    exact h2 hmem.symm

theorem escChar_no_gt (c : Char) : '>' ∉ escChar c := by
  by_cases h1 : c = '&'
  · subst h1; decide
  by_cases h2 : c = '<'
  · subst h2; decide
  by_cases h3 : c = '>'
  · subst h3; decide
  · unfold escChar
    rw [if_neg h1, if_neg h2, if_neg h3]
    intro hmem
    rw [List.mem_singleton] at hmem
    exact h3 hmem.symm

theorem escapeHtmlL_no_lt (l : List Char) : '<' ∉ escapeHtmlL l := by
  induction l with
  | nil => exact List.not_mem_nil '<'
  | cons c cs ih =>
    rw [escapeHtmlL_cons]
    intro hmem
    rcases List.mem_append.1 hmem with h | h
    · exact escChar_no_lt c h
    · exact ih h

theorem escapeHtmlL_no_gt (l : List Char) : '>' ∉ escapeHtmlL l := by
  induction l with
  | nil => exact List.not_mem_nil '>'
  | cons c cs ih =>
    rw [escapeHtmlL_cons]
    intro hmem
    rcases List.mem_append.1 hmem with h | h
    · exact escChar_no_gt c h
    · exact ih h

theorem ampOk_escapeHtmlL (l : List Char) : ampOk (escapeHtmlL l) = true := by
  induction l with
  | nil => rfl
  | cons c cs ih =>
    rw [escapeHtmlL_cons]
    by_cases h1 : c = '&'
    · subst h1; simp +decide [escChar, ampOk, litPrefix, ih]
    by_cases h2 : c = '<'
    · subst h2; simp +decide [escChar, ampOk, litPrefix, ih]
    by_cases h3 : c = '>'
    · subst h3; simp +decide [escChar, ampOk, litPrefix, ih]
    · simp [escChar, h1, h2, h3, ampOk, ih]

theorem escapeHtmlL_of_plain (l : List Char)
    (h : ∀ c ∈ l, ¬ c = '&' ∧ ¬ c = '<' ∧ ¬ c = '>') : escapeHtmlL l = l := by
  induction l with
  | nil => rfl
  | cons c cs ih =>
    rw [escapeHtmlL_cons]
    obtain ⟨h1, h2, h3⟩ := h c (List.mem_cons_self c cs)
    rw [show escChar c = [c] by unfold escChar; rw [if_neg h1, if_neg h2, if_neg h3]]
    rw [ih (fun x hx => h x (List.mem_cons_of_mem c hx))]
    rfl

theorem escChar_nonspace (c : Char) (h : isJsSpace c = false) :
    ∀ d ∈ escChar c, isJsSpace d = false := by
  by_cases h1 : c = '&'
  · subst h1; decide
  by_cases h2 : c = '<'
  · subst h2; decide
  by_cases h3 : c = '>'
  · subst h3; decide
  · unfold escChar
    rw [if_neg h1, if_neg h2, if_neg h3]
    intro d hd
    rw [List.mem_singleton] at hd
    rw [hd]
    exact h

theorem escapeHtmlL_nonspace (l : List Char) (h : ∀ c ∈ l, isJsSpace c = false) :
    ∀ d ∈ escapeHtmlL l, isJsSpace d = false := by
  induction l with
  | nil => intro d hd; cases hd
  | cons c cs ih =>
    rw [escapeHtmlL_cons]
    intro d hd
    rcases List.mem_append.1 hd with hm | hm
    · exact escChar_nonspace c (h c (List.mem_cons_self c cs)) d hm
    · exact ih (fun x hx => h x (List.mem_cons_of_mem c hx)) d hm

theorem escChar_ne_nil (c : Char) : escChar c ≠ [] := by
  by_cases h1 : c = '&'
  · subst h1; decide
  by_cases h2 : c = '<'
  · subst h2; decide
  by_cases h3 : c = '>'
  · subst h3; decide
  · unfold escChar
    rw [if_neg h1, if_neg h2, if_neg h3]
    exact List.cons_ne_nil c []

theorem escapeHtmlL_ne_nil (l : List Char) (h : l ≠ []) : escapeHtmlL l ≠ [] := by
  cases l with
  | nil => exact absurd rfl h
  | cons c cs =>
    rw [escapeHtmlL_cons]
    intro hcontra
    exact escChar_ne_nil c (List.append_eq_nil.1 hcontra).1

theorem escChar_of_space (c : Char) (h : isJsSpace c = true) : escChar c = [c] := by
  have hd := h
  simp [isJsSpace] at hd
  rcases hd with ((((((h | h) | h) | h) | h) | h) | h) <;> subst h <;> decide

theorem spaceHeadedOrNil_escapeHtmlL (l : List Char) (h : spaceHeadedOrNil l = true) :
    spaceHeadedOrNil (escapeHtmlL l) = true := by
  cases l with
  | nil => rfl
  | cons c cs =>
    have hc : isJsSpace c = true := by simpa [spaceHeadedOrNil] using h
    rw [escapeHtmlL_cons, escChar_of_space c hc]
    simpa [spaceHeadedOrNil] using hc

theorem litPrefix_escape : ∀ (cs pat : List Char),
    (∀ p ∈ pat, ¬ p = '&' ∧ ¬ p = '<' ∧ ¬ p = '>') →
    litPrefix pat (escapeHtmlL cs) = litPrefix pat cs := by
  intro cs
  induction cs with
  | nil => intro pat hpat; rfl
  | cons c cs ih =>
    intro pat hpat
    rw [escapeHtmlL_cons]
    cases pat with
    | nil => rfl
    | cons p ps =>
      obtain ⟨hp1, hp2, hp3⟩ := hpat p (List.mem_cons_self p ps)
      by_cases hc1 : c = '&'
      · subst hc1
        simp [escChar, litPrefix, hp1]
      by_cases hc2 : c = '<'
      · subst hc2
        simp [escChar, litPrefix, hp1, hp2]
      by_cases hc3 : c = '>'
      · subst hc3
        simp [escChar, litPrefix, hp1, hp3]
      · rw [show escChar c = [c] by unfold escChar; rw [if_neg hc1, if_neg hc2, if_neg hc3]]
        show litPrefix (p :: ps) (c :: escapeHtmlL cs) = litPrefix (p :: ps) (c :: cs)
        by_cases hpc : p = c
        · simp [litPrefix, hpc,
            ih ps (fun q hq => hpat q (List.mem_cons_of_mem p hq))]
        · simp [litPrefix, hpc]

theorem startsWithProto_escape (cs : List Char) :
    startsWithProto (escapeHtmlL cs) = startsWithProto cs := by
  unfold startsWithProto
  rw [litPrefix_escape cs protoHttp (by decide),
    litPrefix_escape cs protoHttps (by decide)]

theorem hasProto_amp (X : List Char) :
    hasProto (['&', 'a', 'm', 'p', ';'] ++ X) = hasProto X := by
  simp +decide [hasProto, startsWithProto, litPrefix, protoHttp, protoHttps]

theorem hasProto_lt (X : List Char) :
    hasProto (['&', 'l', 't', ';'] ++ X) = hasProto X := by
  simp +decide [hasProto, startsWithProto, litPrefix, protoHttp, protoHttps]

theorem hasProto_gt (X : List Char) :
    hasProto (['&', 'g', 't', ';'] ++ X) = hasProto X := by
  simp +decide [hasProto, startsWithProto, litPrefix, protoHttp, protoHttps]

theorem hasProto_escape (cs : List Char) : hasProto (escapeHtmlL cs) = hasProto cs := by
  induction cs with
  | nil => rfl
  | cons c cs ih =>
    rw [escapeHtmlL_cons]
    by_cases h1 : c = '&'
    · subst h1
      rw [show escChar '&' = ['&', 'a', 'm', 'p', ';'] from rfl, hasProto_amp, ih]
      simp +decide [hasProto, startsWithProto, litPrefix, protoHttp, protoHttps]
    by_cases h2 : c = '<'
    · subst h2
      rw [show escChar '<' = ['&', 'l', 't', ';'] from rfl, hasProto_lt, ih]
      simp +decide [hasProto, startsWithProto, litPrefix, protoHttp, protoHttps]
    by_cases h3 : c = '>'
    · subst h3
      rw [show escChar '>' = ['&', 'g', 't', ';'] from rfl, hasProto_gt, ih]
      simp +decide [hasProto, startsWithProto, litPrefix, protoHttp, protoHttps]
    · have hesc : escChar c = [c] := by
        unfold escChar
        rw [if_neg h1, if_neg h2, if_neg h3]
      rw [hesc]
      have hsw : startsWithProto (c :: escapeHtmlL cs) = startsWithProto (c :: cs) := by
        have hthis := startsWithProto_escape (c :: cs)
        rw [escapeHtmlL_cons, hesc] at hthis
        exact hthis
      show hasProto (c :: escapeHtmlL cs) = hasProto (c :: cs)
      simp only [hasProto]
      rw [hsw, ih]

theorem urlMatchAt_of_no_proto (cs : List Char) (h : startsWithProto cs = false) :
    urlMatchAt cs = none := by
  have h' : litPrefix protoHttp cs = false ∧ litPrefix protoHttps cs = false := by
    simpa [startsWithProto] using h
  simp [urlMatchAt, urlPrefixLen, h'.1, h'.2]

theorem findUrl_of_no_hasProto (cs : List Char) (h : hasProto cs = false) :
    findUrl cs = none := by
  induction cs with
  | nil => rfl
  | cons c rest ih =>
    have h' : startsWithProto (c :: rest) = false ∧ hasProto rest = false := by
      simpa [hasProto] using h
    unfold findUrl
    rw [urlMatchAt_of_no_proto _ h'.1, ih h'.2]

theorem replaceUrlsF_of_no_hasProto (f : List Char → List Char) :
    ∀ (n : Nat) (cs : List Char), hasProto cs = false → replaceUrlsF f n cs = cs
  | 0, [], _ => rfl
  | 0, _ :: _, _ => rfl
  | Nat.succ _, [], _ => rfl
  | Nat.succ n, c :: rest, h => by
    have h' : startsWithProto (c :: rest) = false ∧ hasProto rest = false := by
      simpa [hasProto] using h
    show replaceUrlsF f (n + 1) (c :: rest) = c :: rest
    unfold replaceUrlsF
    rw [urlMatchAt_of_no_proto _ h'.1]
    show c :: replaceUrlsF f n rest = c :: rest
    rw [replaceUrlsF_of_no_hasProto f n rest h'.2]

theorem litPrefix_append_no_h : ∀ (pat a b' : List Char), 'h' ∉ pat →
    litPrefix pat (a ++ 'h' :: b') = true → litPrefix pat a = true
  | [], _, _, _, _ => rfl
  | p :: ps, [], b', hh, hlp => by
    exfalso
    rw [List.nil_append] at hlp
    by_cases hp : p = 'h'
    · exact hh (hp ▸ List.mem_cons_self p ps)
    · unfold litPrefix at hlp
      rw [if_neg hp] at hlp
      cases hlp
  | p :: ps, x :: a', b', hh, hlp => by
    have hstep : litPrefix (p :: ps) (x :: (a' ++ 'h' :: b')) =
        if p = x then litPrefix ps (a' ++ 'h' :: b') else false := rfl
    rw [List.cons_append] at hlp
    rw [hstep] at hlp
    by_cases hpx : p = x
    · rw [if_pos hpx] at hlp
      have := litPrefix_append_no_h ps a' b'
        (fun hmem => hh (List.mem_cons_of_mem p hmem)) hlp
      show (if p = x then litPrefix ps a' else false) = true
      rw [if_pos hpx]
      exact this
    · rw [if_neg hpx] at hlp
      cases hlp

theorem startsWithProto_append_h (a b' : List Char) (hne : a ≠ [])
    (h : startsWithProto (a ++ 'h' :: b') = true) : startsWithProto a = true := by
  cases a with
  | nil => exact absurd rfl hne
  | cons x a' =>
    have h' : litPrefix protoHttp ((x :: a') ++ 'h' :: b') = true ∨
        litPrefix protoHttps ((x :: a') ++ 'h' :: b') = true := by
      simpa [startsWithProto] using h
    unfold startsWithProto
    rcases h' with h1 | h1
    · have hx : ('h' : Char) = x ∧
          litPrefix ['t', 't', 'p', ':', '/', '/'] (a' ++ 'h' :: b') = true := by
        by_cases hpx : ('h' : Char) = x
        · refine ⟨hpx, ?_⟩
          have hstep : litPrefix protoHttp ((x :: a') ++ 'h' :: b') =
              if ('h' : Char) = x then
                litPrefix ['t', 't', 'p', ':', '/', '/'] (a' ++ 'h' :: b')
              else false := rfl
          rw [hstep, if_pos hpx] at h1
          exact h1
        · exfalso
          have hstep : litPrefix protoHttp ((x :: a') ++ 'h' :: b') =
              if ('h' : Char) = x then
                litPrefix ['t', 't', 'p', ':', '/', '/'] (a' ++ 'h' :: b')
              else false := rfl
          rw [hstep, if_neg hpx] at h1
          cases h1
      have htail := litPrefix_append_no_h ['t', 't', 'p', ':', '/', '/'] a' b'
        (by decide) hx.2
      have : litPrefix protoHttp (x :: a') = true := by
        show (if ('h' : Char) = x then litPrefix ['t', 't', 'p', ':', '/', '/'] a'
          else false) = true
        rw [if_pos hx.1]
        exact htail
      simp [this]
    · have hx : ('h' : Char) = x ∧
          litPrefix ['t', 't', 'p', 's', ':', '/', '/'] (a' ++ 'h' :: b') = true := by
        by_cases hpx : ('h' : Char) = x
        · refine ⟨hpx, ?_⟩
          have hstep : litPrefix protoHttps ((x :: a') ++ 'h' :: b') =
              if ('h' : Char) = x then
                litPrefix ['t', 't', 'p', 's', ':', '/', '/'] (a' ++ 'h' :: b')
              else false := rfl
          rw [hstep, if_pos hpx] at h1
          exact h1
        · exfalso
          have hstep : litPrefix protoHttps ((x :: a') ++ 'h' :: b') =
              if ('h' : Char) = x then
                litPrefix ['t', 't', 'p', 's', ':', '/', '/'] (a' ++ 'h' :: b')
              else false := rfl
          rw [hstep, if_neg hpx] at h1
          cases h1
      have htail := litPrefix_append_no_h ['t', 't', 'p', 's', ':', '/', '/'] a' b'
        (by decide) hx.2
      have : litPrefix protoHttps (x :: a') = true := by
        show (if ('h' : Char) = x then litPrefix ['t', 't', 'p', 's', ':', '/', '/'] a'
          else false) = true
        rw [if_pos hx.1]
        exact htail
      simp [this]

theorem findUrl_append_match : ∀ (a b' m after : List Char),
    hasProto a = false → urlMatchAt ('h' :: b') = some (m, after) →
    findUrl (a ++ 'h' :: b') = some (a, m, after)
  | [], b', m, after, _, hm => by
    rw [List.nil_append]
    exact findUrl_of_match _ _ _ (List.cons_ne_nil 'h' b') hm
  | c :: a', b', m, after, h, hm => by
    have h' : startsWithProto (c :: a') = false ∧ hasProto a' = false := by
      simpa [hasProto] using h
    have hnosw : startsWithProto ((c :: a') ++ 'h' :: b') = false := by
      cases hsw : startsWithProto ((c :: a') ++ 'h' :: b') with
      | false => rfl
      | true =>
        have hc := startsWithProto_append_h (c :: a') b' (List.cons_ne_nil c a') hsw
        rw [h'.1] at hc
        cases hc
    have hmat : urlMatchAt (c :: (a' ++ 'h' :: b')) = none := by
      have := urlMatchAt_of_no_proto _ hnosw
      rwa [List.cons_append] at this
    show findUrl (c :: (a' ++ 'h' :: b')) = some (c :: a', m, after)
    unfold findUrl
    rw [hmat]
    rw [findUrl_append_match a' b' m after h'.2 hm]

theorem replaceUrlsF_append_match (f : List Char → List Char) :
    ∀ (n : Nat) (a b' m after : List Char),
    hasProto a = false → urlMatchAt ('h' :: b') = some (m, after) →
    (a ++ 'h' :: b').length ≤ n → hasProto after = false →
    replaceUrlsF f n (a ++ 'h' :: b') = a ++ f m ++ after
  | 0, a, b', m, after, _, _, hlen, _ => by
    exfalso
    have : 0 < (a ++ 'h' :: b').length := by simp
    omega
  | Nat.succ n, [], b', m, after, _, hm, hlen, hafter => by
    rw [List.nil_append]
    show replaceUrlsF f (n + 1) ('h' :: b') = [] ++ f m ++ after
    unfold replaceUrlsF
    rw [hm]
    show f m ++ replaceUrlsF f n after = [] ++ f m ++ after
    rw [replaceUrlsF_of_no_hasProto f n after hafter]
    rw [List.nil_append]
  | Nat.succ n, c :: a', b', m, after, h, hm, hlen, hafter => by
    have h' : startsWithProto (c :: a') = false ∧ hasProto a' = false := by
      simpa [hasProto] using h
    have hnosw : startsWithProto ((c :: a') ++ 'h' :: b') = false := by
      cases hsw : startsWithProto ((c :: a') ++ 'h' :: b') with
      | false => rfl
      | true =>
        have hc := startsWithProto_append_h (c :: a') b' (List.cons_ne_nil c a') hsw
        rw [h'.1] at hc
        cases hc
    have hmat : urlMatchAt (c :: (a' ++ 'h' :: b')) = none := by
      have := urlMatchAt_of_no_proto _ hnosw
      rwa [List.cons_append] at this
    have hlen' : (a' ++ 'h' :: b').length ≤ n := by
      rw [List.cons_append] at hlen
      simpa using Nat.lt_succ_iff.mp (Nat.lt_of_lt_of_le (Nat.lt_succ_self _) hlen)
    show replaceUrlsF f (n + 1) (c :: (a' ++ 'h' :: b')) = (c :: a') ++ f m ++ after
    unfold replaceUrlsF
    rw [hmat]
    show c :: replaceUrlsF f n (a' ++ 'h' :: b') = (c :: a') ++ f m ++ after
    rw [replaceUrlsF_append_match f n a' b' m after h'.2 hm hlen' hafter]
    rfl

theorem urlMatchAt_url_append (proto r post : List Char)
    (hproto : proto = protoHttp ∨ proto = protoHttps)
    (hr : r ≠ []) (hrns : ∀ c ∈ r, isJsSpace c = false)
    (hpost : spaceHeadedOrNil post = true) :
    urlMatchAt ((proto ++ r) ++ post) = some (proto ++ r, post) := by
  have hprotons : ∀ c ∈ proto, isJsSpace c = false := by
    rcases hproto with h | h <;> subst h <;> decide
  have hall : ∀ c ∈ proto ++ r, nonSpace c = true := by
    intro c hc
    rcases List.mem_append.1 hc with h | h
    · simp [nonSpace, hprotons c h]
    · simp [nonSpace, hrns c h]
  have hpostTake : post.takeWhile nonSpace = [] := by
    cases post with
    | nil => rfl
    | cons c cs =>
      have hc : isJsSpace c = true := by simpa [spaceHeadedOrNil] using hpost
      rw [List.takeWhile_cons_of_neg]
      simp [nonSpace, hc]
  have htake : ((proto ++ r) ++ post).takeWhile nonSpace = proto ++ r := by
    rw [List.takeWhile_append_of_pos hall, hpostTake, List.append_nil]
  have hdrop : ((proto ++ r) ++ post).drop (proto ++ r).length = post :=
    List.drop_left _ _
  rcases hproto with h | h <;> subst h
  · have hp : urlPrefixLen (protoHttp ++ (r ++ post)) = some 7 :=
      urlPrefixLen_http (r ++ post)
    have hlen : 7 < (protoHttp ++ r).length := by
      have := List.length_pos.2 hr
      simp [protoHttp]
      omega
    have htake' : List.takeWhile nonSpace (protoHttp ++ (r ++ post)) =
        protoHttp ++ r := by
      rw [← List.append_assoc]
      exact htake
    have hdrop' : List.drop (protoHttp ++ r).length (protoHttp ++ (r ++ post)) =
        post := by
      rw [← List.append_assoc]
      exact hdrop
    simp [urlMatchAt, hp, htake', hlen, hdrop']
    have hpl : protoHttp.length = 7 := by decide
    have hrl := List.length_pos.2 hr
    omega
  · have hp : urlPrefixLen (protoHttps ++ (r ++ post)) = some 8 :=
      urlPrefixLen_https (r ++ post)
    have hlen : 8 < (protoHttps ++ r).length := by
      have := List.length_pos.2 hr
      simp [protoHttps]
      omega
    have htake' : List.takeWhile nonSpace (protoHttps ++ (r ++ post)) =
        protoHttps ++ r := by
      rw [← List.append_assoc]
      exact htake
    have hdrop' : List.drop (protoHttps ++ r).length (protoHttps ++ (r ++ post)) =
        post := by
      rw [← List.append_assoc]
      exact hdrop
    simp [urlMatchAt, hp, htake', hlen, hdrop']
    have hpl : protoHttps.length = 8 := by decide
    have hrl := List.length_pos.2 hr
    omega

theorem litPrefix_mono : ∀ (pat l b : List Char), litPrefix pat l = true →
    litPrefix pat (l ++ b) = true
  | [], _, _, _ => rfl
  | p :: ps, [], _, h => by cases h
  | p :: ps, x :: l', b, h => by
    have hstep : litPrefix (p :: ps) (x :: l') =
        if p = x then litPrefix ps l' else false := rfl
    rw [hstep] at h
    by_cases hpx : p = x
    · rw [if_pos hpx] at h
      show (if p = x then litPrefix ps (l' ++ b) else false) = true
      rw [if_pos hpx]
      exact litPrefix_mono ps l' b h
    · rw [if_neg hpx] at h
      cases h

theorem hasProto_append_right (a b : List Char) (h : hasProto b = true) :
    hasProto (a ++ b) = true := by
  induction a with
  | nil => exact h
  | cons c a' ih =>
    show hasProto (c :: (a' ++ b)) = true
    simp [hasProto, ih]

theorem startsWithProto_mono (l b : List Char) (h : startsWithProto l = true) :
    startsWithProto (l ++ b) = true := by
  have h' : litPrefix protoHttp l = true ∨ litPrefix protoHttps l = true := by
    simpa [startsWithProto] using h
  unfold startsWithProto
  rcases h' with h1 | h1
  · simp [litPrefix_mono protoHttp l b h1]
  · simp [litPrefix_mono protoHttps l b h1]

theorem hasProto_prefix (a b : List Char) (h : hasProto a = true) :
    hasProto (a ++ b) = true := by
  induction a with
  | nil => cases h
  | cons c a' ih =>
    have h' : startsWithProto (c :: a') = true ∨ hasProto a' = true := by
      simpa [hasProto] using h
    show hasProto (c :: (a' ++ b)) = true
    rcases h' with h1 | h1
    · have := startsWithProto_mono (c :: a') b h1
      rw [List.cons_append] at this
      simp [hasProto, this]
    · simp [hasProto, ih h1]

theorem dropWhile_decomp (l : List Char) :
    l.dropWhile isJsSpace = trimL l ++
      ((l.dropWhile isJsSpace).reverse.takeWhile isJsSpace).reverse := by
  unfold trimL
  conv_lhs => rw [← List.reverse_reverse (l.dropWhile isJsSpace)]
  conv_lhs =>
    rw [← List.takeWhile_append_dropWhile (p := isJsSpace)
      (l := (l.dropWhile isJsSpace).reverse)]
  rw [List.reverse_append]

theorem hasProto_trim (l : List Char) (h : hasProto l = false) :
    hasProto (trimL l) = false := by
  cases htr : hasProto (trimL l) with
  | false => rfl
  | true =>
    exfalso
    have h1 : hasProto (l.dropWhile isJsSpace) = true := by
      rw [dropWhile_decomp l]
      exact hasProto_prefix _ _ htr
    have h2 : hasProto l = true := by
      conv_lhs => rw [← List.takeWhile_append_dropWhile (p := isJsSpace) (l := l)]
      exact hasProto_append_right _ _ h1
    rw [h] at h2
    cases h2

theorem isStandaloneImage_of_no_proto (t : List Char) (h : hasProto t = false) :
    isStandaloneImage t = false := by
  have hf : findUrl t = none := findUrl_of_no_hasProto t h
  simp [isStandaloneImage, firstUrlToken, hf]

theorem trimL_nil_all_space (l : List Char) (h : trimL l = []) :
    ∀ c ∈ l, isJsSpace c = true := by
  unfold trimL at h
  rw [List.reverse_eq_nil_iff] at h
  have h2 := List.dropWhile_eq_nil_iff.1 h
  intro c hc
  rw [← List.takeWhile_append_dropWhile (p := isJsSpace) (l := l)] at hc
  rcases List.mem_append.1 hc with h1 | h1
  · exact List.mem_takeWhile_imp h1
  · exact h2 c (List.mem_reverse.2 h1)

theorem trimL_ne_nil (l : List Char) (c : Char) (hc : c ∈ l)
    (hns : isJsSpace c = false) : trimL l ≠ [] := by
  intro hcontra
  have := trimL_nil_all_space l hcontra c hc
  rw [hns] at this
  cases this

theorem renderLine_url_decomp (pre proto r post : List Char)
    (hproto : proto = protoHttp ∨ proto = protoHttps)
    (hr : r ≠ []) (hrns : ∀ c ∈ r, isJsSpace c = false)
    (hpre : hasProto pre = false) (hpost : hasProto post = false)
    (hhead : spaceHeadedOrNil post = true)
    (hstand : isStandaloneImage (trimL (pre ++ (proto ++ r) ++ post)) = false) :
    renderLine (pre ++ (proto ++ r) ++ post) =
      "<p>".data ++ escapeHtmlL pre ++ urlReplacer (escapeHtmlL (proto ++ r)) ++
        escapeHtmlL post ++ "</p>".data := by
  have hEsplit : escapeHtmlL (pre ++ (proto ++ r) ++ post) =
      escapeHtmlL pre ++ escapeHtmlL (proto ++ r) ++ escapeHtmlL post := by
    rw [escapeHtmlL_append, escapeHtmlL_append]
  have hEproto : escapeHtmlL proto = proto := by
    rcases hproto with h | h <;> subst h <;> decide
  have hEurl : escapeHtmlL (proto ++ r) = proto ++ escapeHtmlL r := by
    rw [escapeHtmlL_append, hEproto]
  have hErne : escapeHtmlL r ≠ [] := escapeHtmlL_ne_nil r hr
  have hErns : ∀ c ∈ escapeHtmlL r, isJsSpace c = false := escapeHtmlL_nonspace r hrns
  have hEpre : hasProto (escapeHtmlL pre) = false := by
    rw [hasProto_escape]
    exact hpre
  have hEpost : hasProto (escapeHtmlL post) = false := by
    rw [hasProto_escape]
    exact hpost
  have hEhead : spaceHeadedOrNil (escapeHtmlL post) = true :=
    spaceHeadedOrNil_escapeHtmlL post hhead
  have hmatch : urlMatchAt ((proto ++ escapeHtmlL r) ++ escapeHtmlL post) =
      some (proto ++ escapeHtmlL r, escapeHtmlL post) :=
    urlMatchAt_url_append proto (escapeHtmlL r) (escapeHtmlL post) hproto hErne
      hErns hEhead
  obtain ⟨t, hpt⟩ : ∃ t, proto = 'h' :: t := by
    rcases hproto with h | h <;> subst h
    · exact ⟨_, rfl⟩
    · exact ⟨_, rfl⟩
  have hmatch' : urlMatchAt ('h' :: (t ++ (escapeHtmlL r ++ escapeHtmlL post))) =
      some ('h' :: (t ++ escapeHtmlL r), escapeHtmlL post) := by
    rw [hpt] at hmatch
    simpa using hmatch
  have hne : trimL (pre ++ (proto ++ r) ++ post) ≠ [] := by
    apply trimL_ne_nil _ 'h'
    · rw [hpt]
      simp
    · decide
  have hnotempty : (trimL (pre ++ (proto ++ r) ++ post)).isEmpty = false := by
    cases hcs : trimL (pre ++ (proto ++ r) ++ post) with
    | nil => exact absurd hcs hne
    | cons c rest => rfl
  have hform : escapeHtmlL (pre ++ (proto ++ r) ++ post) =
      escapeHtmlL pre ++ ('h' :: (t ++ (escapeHtmlL r ++ escapeHtmlL post))) := by
    rw [hEsplit, hEurl, hpt]
    simp
  have hreplace : replaceUrls urlReplacer (escapeHtmlL (pre ++ (proto ++ r) ++ post)) =
      escapeHtmlL pre ++ urlReplacer ('h' :: (t ++ escapeHtmlL r)) ++
        escapeHtmlL post := by
    unfold replaceUrls
    rw [hform]
    exact replaceUrlsF_append_match urlReplacer _ (escapeHtmlL pre)
      (t ++ (escapeHtmlL r ++ escapeHtmlL post)) ('h' :: (t ++ escapeHtmlL r))
      (escapeHtmlL post) hEpre hmatch' (le_refl _) hEpost
  simp only [renderLine]
  rw [hnotempty, if_neg Bool.false_ne_true]
  rw [hstand, if_neg Bool.false_ne_true]
  rw [hreplace, hEurl, hpt]
  simp [List.append_assoc, List.cons_append]

/-- C4 (amended): for a line `pre ++ url ++ post` containing one non-image
    `http(s)` URL made of characters other than `&`, `<`, `>`, with no other
    URL around it and not rendered as a standalone image, the output is the
    escaped text with exactly one anchor whose `href` equals the URL
    verbatim, `target="_blank"` and `rel="noopener noreferrer"` (the escaped
    surroundings contain no `<`, so no other anchor can appear); for such
    URLs the second `escapeHtml` pass is the identity, so they are not
    escaped twice.  URLs containing `&` are double-escaped — see the
    counterexample `url_with_ampersand_double_escaped`. -/
theorem nonimage_url_renders_anchor (pre proto r post : List Char)
    (hproto : proto = protoHttp ∨ proto = protoHttps)
    (hr : r ≠ []) (hrns : ∀ c ∈ r, isJsSpace c = false)
    (hrplain : ∀ c ∈ r, ¬ c = '&' ∧ ¬ c = '<' ∧ ¬ c = '>')
    (himg : isImgUrl (proto ++ r) = false)
    (hpre : hasProto pre = false) (hpost : hasProto post = false)
    (hhead : spaceHeadedOrNil post = true)
    (hstand : isStandaloneImage (trimL (pre ++ (proto ++ r) ++ post)) = false) :
    renderLine (pre ++ (proto ++ r) ++ post) =
      "<p>".data ++ escapeHtmlL pre ++ anchorHtml (proto ++ r) ++
        escapeHtmlL post ++ "</p>".data ∧
    '<' ∉ escapeHtmlL pre ∧ '<' ∉ escapeHtmlL post := by
  have hprotoplain : ∀ c ∈ proto, ¬ c = '&' ∧ ¬ c = '<' ∧ ¬ c = '>' := by
    rcases hproto with hp | hp <;> subst hp <;> decide
  have hplain : ∀ c ∈ proto ++ r, ¬ c = '&' ∧ ¬ c = '<' ∧ ¬ c = '>' := by
    intro c hc
    rcases List.mem_append.1 hc with h | h
    · exact hprotoplain c h
    · exact hrplain c h
  have hEurl : escapeHtmlL (proto ++ r) = proto ++ r := escapeHtmlL_of_plain _ hplain
  have hrep : urlReplacer (escapeHtmlL (proto ++ r)) = anchorHtml (proto ++ r) := by
    rw [hEurl]
    unfold urlReplacer
    rw [himg, if_neg Bool.false_ne_true, hEurl]
  have hmain := renderLine_url_decomp pre proto r post hproto hr hrns hpre hpost
    hhead hstand
  rw [hrep] at hmain
  exact ⟨hmain, escapeHtmlL_no_lt pre, escapeHtmlL_no_lt post⟩

/-- Witness for C4 at a concrete line `see http://example.com/page`. -/
theorem nonimage_url_renders_anchor_witness :
    renderLine ("see ".data ++ (protoHttp ++ "example.com/page".data) ++ []) =
      "<p>".data ++ escapeHtmlL "see ".data ++
        anchorHtml (protoHttp ++ "example.com/page".data) ++ escapeHtmlL [] ++
        "</p>".data :=
  (nonimage_url_renders_anchor "see ".data protoHttp "example.com/page".data []
    (Or.inl rfl) (by decide) (by decide) (by decide) (by decide) (by decide) rfl rfl
    (by decide)).1

/-- C4 counterexample: the URL `http://e.com/?a=1&b=2` is escaped once by
    the line escape and a second time by the replacer, so the emitted
    `href` is the double-escaped `http://e.com/?a=1&amp;amp;b=2` — the
    output contains no anchor whose `href` equals the URL (nor even its
    single-escaped form), refuting both the `href`-equality and the
    no-double-escaping parts of the claim. -/
theorem url_with_ampersand_double_escaped :
    renderContentToHtml "http://e.com/?a=1&b=2" =
      "<p><a href=\"http://e.com/?a=1&amp;amp;b=2\" target=\"_blank\" rel=\"noopener noreferrer\">http://e.com/?a=1&amp;amp;b=2</a></p>" ∧
    containsSeq "&amp;amp;".data (renderContentToHtml "http://e.com/?a=1&b=2").data = true ∧
    containsSeq "href=\"http://e.com/?a=1&b=2\"".data
      (renderContentToHtml "http://e.com/?a=1&b=2").data = false ∧
    containsSeq "href=\"http://e.com/?a=1&amp;b=2\"".data
      (renderContentToHtml "http://e.com/?a=1&b=2").data = false := by
  exact ⟨by rfl, by decide, by decide, by decide⟩

/-- C5: user text is escaped before link substitution.  For a line with no
    URL the paragraph body is exactly `escapeHtml` of the line, which
    contains no raw `<` or `>` and in which every `&` begins an entity; for
    a line around a single URL, substitution operates on the already-escaped
    text and the non-URL segments keep those same escaped-only properties. -/
theorem user_text_escaped_before_linking :
    (∀ line : List Char, hasProto line = false → trimL line ≠ [] →
      renderLine line = "<p>".data ++ escapeHtmlL line ++ "</p>".data ∧
      '<' ∉ escapeHtmlL line ∧ '>' ∉ escapeHtmlL line ∧
      ampOk (escapeHtmlL line) = true) ∧
    (∀ pre proto r post : List Char,
      proto = protoHttp ∨ proto = protoHttps → r ≠ [] →
      (∀ c ∈ r, isJsSpace c = false) → hasProto pre = false → hasProto post = false →
      spaceHeadedOrNil post = true →
      isStandaloneImage (trimL (pre ++ (proto ++ r) ++ post)) = false →
      renderLine (pre ++ (proto ++ r) ++ post) =
        "<p>".data ++ escapeHtmlL pre ++ urlReplacer (escapeHtmlL (proto ++ r)) ++
          escapeHtmlL post ++ "</p>".data ∧
      '<' ∉ escapeHtmlL pre ∧ '>' ∉ escapeHtmlL pre ∧ ampOk (escapeHtmlL pre) = true ∧
      '<' ∉ escapeHtmlL post ∧ '>' ∉ escapeHtmlL post ∧
      ampOk (escapeHtmlL post) = true) := by
  constructor
  · intro line hnoproto htrimne
    have hstand := isStandaloneImage_of_no_proto (trimL line)
      (hasProto_trim line hnoproto)
    have hnotempty : (trimL line).isEmpty = false := by
      cases hcs : trimL line with
      | nil => exact absurd hcs htrimne
      | cons c rest => rfl
    have hEline : hasProto (escapeHtmlL line) = false := by
      rw [hasProto_escape]
      exact hnoproto
    have hrepl : replaceUrls urlReplacer (escapeHtmlL line) = escapeHtmlL line :=
      replaceUrlsF_of_no_hasProto urlReplacer _ _ hEline
    refine ⟨?_, escapeHtmlL_no_lt line, escapeHtmlL_no_gt line, ampOk_escapeHtmlL line⟩
    simp only [renderLine]
    rw [hnotempty, if_neg Bool.false_ne_true]
    rw [hstand, if_neg Bool.false_ne_true]
    rw [hrepl]
  · intro pre proto r post hproto hr hrns hpre hpost hhead hstand
    exact ⟨renderLine_url_decomp pre proto r post hproto hr hrns hpre hpost hhead hstand,
      escapeHtmlL_no_lt pre, escapeHtmlL_no_gt pre, ampOk_escapeHtmlL pre,
      escapeHtmlL_no_lt post, escapeHtmlL_no_gt post, ampOk_escapeHtmlL post⟩

/-- Witness for C5 at a concrete line holding `&` and `<b>`. -/
theorem user_text_escaped_before_linking_witness :
    renderLine "hi & <b> done".data =
      "<p>".data ++ escapeHtmlL "hi & <b> done".data ++ "</p>".data ∧
    '<' ∉ escapeHtmlL "hi & <b> done".data :=
  have h := user_text_escaped_before_linking.1 "hi & <b> done".data (by decide) (by decide)
  ⟨h.1, h.2.1⟩

end MyBlog
